import Mathlib

/-!
Verification of the directed-graph core of the ModelagemGrafos repository.

The two graph representations (`src/graph/adjacency_list_graph.py` and
`src/graph/adjacency_matrix_graph.py`, both over the shared base class
`src/graph/abstract_graph.py`) are shallowly embedded below.  Python
exceptions are modelled with an explicit error type mirroring the
constructors in `src/graph/exceptions.py`; fallible operations return
`Except GraphError _`.  Mutating methods return the successor state.
Python `float` edge weights are modelled as rationals: the code only
stores and retrieves weights, it never computes with them, so no
floating-point rounding behaviour is observable in the modelled
operations.  NumPy arrays and Python dicts are modelled as total
functions (arrays are only ever indexed in range, after
`_validate_vertex`); a dict lookup of a missing key is modelled by the
`keyError` error, exactly as Python would raise `KeyError`.
-/

/-- Errors raised by the graph layer, mirroring `src/graph/exceptions.py`:
`InvalidVertexException(vertex, max_vertex)`, and the two factory methods of
`InvalidEdgeException`: `loop_not_allowed(u)` and `edge_not_found(u, v)`.
`keyError` models Python's built-in `KeyError` on a missing dict key. -/
inductive GraphError where
  | invalidVertex (vertex maxVertex : Int)
  | loopNotAllowed (u : Nat)
  | edgeNotFound (u v : Nat)
  | keyError
deriving DecidableEq, Repr

instance {ε α : Type} [DecidableEq ε] [DecidableEq α] : DecidableEq (Except ε α) :=
  fun a b =>
    match a, b with
    | .ok x, .ok y => decidable_of_iff (x = y) (by simp)
    | .error e, .error f => decidable_of_iff (e = f) (by simp)
    | .ok _, .error _ => isFalse (by simp)
    | .error _, .ok _ => isFalse (by simp)

/-- Embedding of `AdjacencyListGraph` (`adjacency_list_graph.py`).
`adjacency_list` maps each vertex to its Python successor list (insertion
order); `edge_weights` is the `(u, v) -> weight` dict; `num_edges` is the
`_num_edges` counter inherited from `AbstractGraph`. -/
structure AdjacencyListGraph where
  num_vertices : Nat
  adjacency_list : Nat → List Nat
  edge_weights : Nat × Nat → Option ℚ
  num_edges : Int

/-- Embedding of `AdjacencyMatrixGraph` (`adjacency_matrix_graph.py`).
`adjacency_matrix` is the NxN boolean matrix, `edge_weights` the NxN float
matrix (initialised to zero by `np.zeros`). -/
structure AdjacencyMatrixGraph where
  num_vertices : Nat
  adjacency_matrix : Nat → Nat → Bool
  edge_weights : Nat → Nat → ℚ
  num_edges : Int

namespace AdjacencyListGraph

/-- Embedding of `AdjacencyListGraph.__init__`: empty adjacency lists, empty weight dict. -/
def empty (n : Nat) : AdjacencyListGraph :=
  { num_vertices := n
    adjacency_list := fun _ => []
    edge_weights := fun _ => none
    num_edges := 0 }

/-- Embedding of `has_edge`: validate both vertices, then `v in self._adjacency_list[u]`. -/
def has_edge (g : AdjacencyListGraph) (u v : Nat) : Except GraphError Bool :=
  if u < g.num_vertices then
    if v < g.num_vertices then
      .ok (decide (v ∈ g.adjacency_list u))
    else .error (.invalidVertex v ((g.num_vertices : Int) - 1))
  else .error (.invalidVertex u ((g.num_vertices : Int) - 1))

/-- The mutation block of `add_edge`: append `v` to `u`'s list, store weight
`0.0` under key `(u, v)`, increment `_num_edges`. -/
def insertEdge (g : AdjacencyListGraph) (u v : Nat) : AdjacencyListGraph :=
  { g with
    adjacency_list := fun w => if w = u then g.adjacency_list u ++ [v] else g.adjacency_list w
    edge_weights := fun p => if p = (u, v) then some 0 else g.edge_weights p
    num_edges := g.num_edges + 1 }

/-- Embedding of `add_edge`: `_validate_edge` (vertex bounds then loop check), then insert
only if the edge is not already present. -/
def add_edge (g : AdjacencyListGraph) (u v : Nat) : Except GraphError AdjacencyListGraph :=
  if u < g.num_vertices then
    if v < g.num_vertices then
      if u = v then .error (.loopNotAllowed u)
      else if v ∈ g.adjacency_list u then .ok g
      else .ok (g.insertEdge u v)
    else .error (.invalidVertex v ((g.num_vertices : Int) - 1))
  else .error (.invalidVertex u ((g.num_vertices : Int) - 1))

/-- The mutation block of `remove_edge`: `list.remove` (first occurrence),
`del` the dict key, decrement `_num_edges`. -/
def eraseEdge (g : AdjacencyListGraph) (u v : Nat) : AdjacencyListGraph :=
  { g with
    adjacency_list := fun w => if w = u then (g.adjacency_list u).erase v else g.adjacency_list w
    edge_weights := fun p => if p = (u, v) then none else g.edge_weights p
    num_edges := g.num_edges - 1 }

/-- Embedding of `remove_edge`: validate both vertices; erase only if present. -/
def remove_edge (g : AdjacencyListGraph) (u v : Nat) : Except GraphError AdjacencyListGraph :=
  if u < g.num_vertices then
    if v < g.num_vertices then
      if v ∈ g.adjacency_list u then .ok (g.eraseEdge u v)
      else .ok g
    else .error (.invalidVertex v ((g.num_vertices : Int) - 1))
  else .error (.invalidVertex u ((g.num_vertices : Int) - 1))

/-- Embedding of `get_vertex_in_degree`: count the vertices `v` in `range(n)` whose
successor list contains `u`. -/
def get_vertex_in_degree (g : AdjacencyListGraph) (u : Nat) : Except GraphError Nat :=
  if u < g.num_vertices then
    .ok ((List.range g.num_vertices).filter (fun v => decide (u ∈ g.adjacency_list v))).length
  else .error (.invalidVertex u ((g.num_vertices : Int) - 1))

/-- Embedding of `get_vertex_out_degree`: `len(self._adjacency_list[u])`. -/
def get_vertex_out_degree (g : AdjacencyListGraph) (u : Nat) : Except GraphError Nat :=
  if u < g.num_vertices then
    .ok (g.adjacency_list u).length
  else .error (.invalidVertex u ((g.num_vertices : Int) - 1))

/-- The mutation block of `set_edge_weight`: overwrite the dict entry. -/
def writeWeight (g : AdjacencyListGraph) (u v : Nat) (w : ℚ) : AdjacencyListGraph :=
  { g with edge_weights := fun p => if p = (u, v) then some w else g.edge_weights p }

/-- Embedding of `set_edge_weight`: validate both vertices, raise `edge_not_found` if
`v` is not in `u`'s successor list, else overwrite the dict entry. -/
def set_edge_weight (g : AdjacencyListGraph) (u v : Nat) (w : ℚ) :
    Except GraphError AdjacencyListGraph :=
  if u < g.num_vertices then
    if v < g.num_vertices then
      if v ∈ g.adjacency_list u then
        .ok (g.writeWeight u v w)
      else .error (.edgeNotFound u v)
    else .error (.invalidVertex v ((g.num_vertices : Int) - 1))
  else .error (.invalidVertex u ((g.num_vertices : Int) - 1))

/-- Embedding of `get_edge_weight`: validate both vertices, raise `edge_not_found` if the
edge is absent, else read the dict (a missing key would be a `KeyError`). -/
def get_edge_weight (g : AdjacencyListGraph) (u v : Nat) : Except GraphError ℚ :=
  if u < g.num_vertices then
    if v < g.num_vertices then
      if v ∈ g.adjacency_list u then
        match g.edge_weights (u, v) with
        | some w => .ok w
        | none => .error .keyError
      else .error (.edgeNotFound u v)
    else .error (.invalidVertex v ((g.num_vertices : Int) - 1))
  else .error (.invalidVertex u ((g.num_vertices : Int) - 1))

/-- Embedding of `get_successors`: a copy of `self._adjacency_list[u]` (same value). -/
def get_successors (g : AdjacencyListGraph) (u : Nat) : Except GraphError (List Nat) :=
  if u < g.num_vertices then
    .ok (g.adjacency_list u)
  else .error (.invalidVertex u ((g.num_vertices : Int) - 1))

/-- Embedding of `get_predecessors`: the vertices `v` in `range(n)` order whose successor
list contains `u`. -/
def get_predecessors (g : AdjacencyListGraph) (u : Nat) : Except GraphError (List Nat) :=
  if u < g.num_vertices then
    .ok ((List.range g.num_vertices).filter (fun v => decide (u ∈ g.adjacency_list v)))
  else .error (.invalidVertex u ((g.num_vertices : Int) - 1))

end AdjacencyListGraph

namespace AdjacencyMatrixGraph

/-- Embedding of `AdjacencyMatrixGraph.__init__`: `np.zeros` boolean and float matrices. -/
def empty (n : Nat) : AdjacencyMatrixGraph :=
  { num_vertices := n
    adjacency_matrix := fun _ _ => false
    edge_weights := fun _ _ => 0
    num_edges := 0 }

/-- Embedding of `has_edge`: validate both vertices, then `bool(matrix[u, v])`. -/
def has_edge (g : AdjacencyMatrixGraph) (u v : Nat) : Except GraphError Bool :=
  if u < g.num_vertices then
    if v < g.num_vertices then
      .ok (g.adjacency_matrix u v)
    else .error (.invalidVertex v ((g.num_vertices : Int) - 1))
  else .error (.invalidVertex u ((g.num_vertices : Int) - 1))

/-- The mutation block of `add_edge`: set the boolean flag, set the weight
cell to `0.0`, increment `_num_edges`. -/
def insertEdge (g : AdjacencyMatrixGraph) (u v : Nat) : AdjacencyMatrixGraph :=
  { g with
    adjacency_matrix := fun a b => if a = u ∧ b = v then true else g.adjacency_matrix a b
    edge_weights := fun a b => if a = u ∧ b = v then 0 else g.edge_weights a b
    num_edges := g.num_edges + 1 }

/-- Embedding of `add_edge`: `_validate_edge`, then insert only if the flag was unset. -/
def add_edge (g : AdjacencyMatrixGraph) (u v : Nat) : Except GraphError AdjacencyMatrixGraph :=
  if u < g.num_vertices then
    if v < g.num_vertices then
      if u = v then .error (.loopNotAllowed u)
      else if g.adjacency_matrix u v then .ok g
      else .ok (g.insertEdge u v)
    else .error (.invalidVertex v ((g.num_vertices : Int) - 1))
  else .error (.invalidVertex u ((g.num_vertices : Int) - 1))

/-- The mutation block of `remove_edge`: clear the flag, reset the weight
cell to `0.0`, decrement `_num_edges`. -/
def eraseEdge (g : AdjacencyMatrixGraph) (u v : Nat) : AdjacencyMatrixGraph :=
  { g with
    adjacency_matrix := fun a b => if a = u ∧ b = v then false else g.adjacency_matrix a b
    edge_weights := fun a b => if a = u ∧ b = v then 0 else g.edge_weights a b
    num_edges := g.num_edges - 1 }

/-- Embedding of `remove_edge`: validate both vertices; erase only if the flag is set. -/
def remove_edge (g : AdjacencyMatrixGraph) (u v : Nat) : Except GraphError AdjacencyMatrixGraph :=
  if u < g.num_vertices then
    if v < g.num_vertices then
      if g.adjacency_matrix u v then .ok (g.eraseEdge u v)
      else .ok g
    else .error (.invalidVertex v ((g.num_vertices : Int) - 1))
  else .error (.invalidVertex u ((g.num_vertices : Int) - 1))

/-- Embedding of `get_vertex_in_degree`: `np.sum` of column `u`, i.e. the number of `v`
in `range(n)` with `matrix[v, u]` set. -/
def get_vertex_in_degree (g : AdjacencyMatrixGraph) (u : Nat) : Except GraphError Nat :=
  if u < g.num_vertices then
    .ok ((List.range g.num_vertices).filter (fun v => g.adjacency_matrix v u)).length
  else .error (.invalidVertex u ((g.num_vertices : Int) - 1))

/-- Embedding of `get_vertex_out_degree`: `np.sum` of row `u`. -/
def get_vertex_out_degree (g : AdjacencyMatrixGraph) (u : Nat) : Except GraphError Nat :=
  if u < g.num_vertices then
    .ok ((List.range g.num_vertices).filter (fun v => g.adjacency_matrix u v)).length
  else .error (.invalidVertex u ((g.num_vertices : Int) - 1))

/-- The mutation block of `set_edge_weight`: overwrite the weight cell. -/
def writeWeight (g : AdjacencyMatrixGraph) (u v : Nat) (w : ℚ) : AdjacencyMatrixGraph :=
  { g with edge_weights := fun a b => if a = u ∧ b = v then w else g.edge_weights a b }

/-- Embedding of `set_edge_weight`: validate both vertices, raise `edge_not_found` if the
flag is unset, else overwrite the weight cell. -/
def set_edge_weight (g : AdjacencyMatrixGraph) (u v : Nat) (w : ℚ) :
    Except GraphError AdjacencyMatrixGraph :=
  if u < g.num_vertices then
    if v < g.num_vertices then
      if g.adjacency_matrix u v then
        .ok (g.writeWeight u v w)
      else .error (.edgeNotFound u v)
    else .error (.invalidVertex v ((g.num_vertices : Int) - 1))
  else .error (.invalidVertex u ((g.num_vertices : Int) - 1))

/-- Embedding of `get_edge_weight`: validate both vertices, raise `edge_not_found` if the
flag is unset, else read the weight cell. -/
def get_edge_weight (g : AdjacencyMatrixGraph) (u v : Nat) : Except GraphError ℚ :=
  if u < g.num_vertices then
    if v < g.num_vertices then
      if g.adjacency_matrix u v then .ok (g.edge_weights u v)
      else .error (.edgeNotFound u v)
    else .error (.invalidVertex v ((g.num_vertices : Int) - 1))
  else .error (.invalidVertex u ((g.num_vertices : Int) - 1))

/-- Embedding of `get_successors`: the vertices `v` in `range(n)` order with
`matrix[u, v]` set. -/
def get_successors (g : AdjacencyMatrixGraph) (u : Nat) : Except GraphError (List Nat) :=
  if u < g.num_vertices then
    .ok ((List.range g.num_vertices).filter (fun v => g.adjacency_matrix u v))
  else .error (.invalidVertex u ((g.num_vertices : Int) - 1))

/-- Embedding of `get_predecessors`: the vertices `v` in `range(n)` order with
`matrix[v, u]` set. -/
def get_predecessors (g : AdjacencyMatrixGraph) (u : Nat) : Except GraphError (List Nat) :=
  if u < g.num_vertices then
    .ok ((List.range g.num_vertices).filter (fun v => g.adjacency_matrix v u))
  else .error (.invalidVertex u ((g.num_vertices : Int) - 1))

end AdjacencyMatrixGraph

/-- One mutating call of the shared graph contract, used to replay identical
call sequences against both representations. -/
inductive GraphOp where
  | addEdge (u v : Nat)
  | removeEdge (u v : Nat)
  | setEdgeWeight (u v : Nat) (w : ℚ)

/-- Apply one call to a list graph; a call that raises leaves the state
unchanged (every raise in the source happens before any mutation). -/
def AdjacencyListGraph.applyOp (g : AdjacencyListGraph) (op : GraphOp) : AdjacencyListGraph :=
  match op with
  | .addEdge u v =>
    match g.add_edge u v with
    | .ok g' => g'
    | .error _ => g
  | .removeEdge u v =>
    match g.remove_edge u v with
    | .ok g' => g'
    | .error _ => g
  | .setEdgeWeight u v w =>
    match g.set_edge_weight u v w with
    | .ok g' => g'
    | .error _ => g

/-- Apply one call to a matrix graph; failed calls leave the state unchanged. -/
def AdjacencyMatrixGraph.applyOp (g : AdjacencyMatrixGraph) (op : GraphOp) : AdjacencyMatrixGraph :=
  match op with
  | .addEdge u v =>
    match g.add_edge u v with
    | .ok g' => g'
    | .error _ => g
  | .removeEdge u v =>
    match g.remove_edge u v with
    | .ok g' => g'
    | .error _ => g
  | .setEdgeWeight u v w =>
    match g.set_edge_weight u v w with
    | .ok g' => g'
    | .error _ => g

/-- Replay a call sequence against a fresh `AdjacencyListGraph(n)`. -/
def AdjacencyListGraph.run (n : Nat) (ops : List GraphOp) : AdjacencyListGraph :=
  ops.foldl AdjacencyListGraph.applyOp (AdjacencyListGraph.empty n)

/-- Replay a call sequence against a fresh `AdjacencyMatrixGraph(n)`. -/
def AdjacencyMatrixGraph.run (n : Nat) (ops : List GraphOp) : AdjacencyMatrixGraph :=
  ops.foldl AdjacencyMatrixGraph.applyOp (AdjacencyMatrixGraph.empty n)

/-- The set of directed pairs currently flagged in the adjacency matrix,
restricted to in-range indices. -/
def AdjacencyMatrixGraph.memPairs (g : AdjacencyMatrixGraph) : Finset (Nat × Nat) :=
  (Finset.range g.num_vertices ×ˢ Finset.range g.num_vertices).filter
    (fun p => g.adjacency_matrix p.1 p.2 = true)

/-- Simulation relation between an `AdjacencyListGraph` and an
`AdjacencyMatrixGraph` of `n` vertices, together with the structural
invariants every reachable state satisfies: adjacency entries are in
range, non-loop and duplicate-free; the weight dict holds exactly the
matrix weight for every present edge; and the `_num_edges` counter of
both representations equals the number of flagged pairs. -/
structure SimRel (n : Nat) (lg : AdjacencyListGraph) (mg : AdjacencyMatrixGraph) : Prop where
  nvL : lg.num_vertices = n
  nvM : mg.num_vertices = n
  ne : lg.num_edges = mg.num_edges
  edges_iff : ∀ u v, v ∈ lg.adjacency_list u ↔ mg.adjacency_matrix u v = true
  wf : ∀ u v, v ∈ lg.adjacency_list u → u < n ∧ v < n ∧ u ≠ v
  nd : ∀ u, (lg.adjacency_list u).Nodup
  wt : ∀ u v, v ∈ lg.adjacency_list u → lg.edge_weights (u, v) = some (mg.edge_weights u v)
  cnt : mg.num_edges = (mg.memPairs.card : Int)

theorem simRel_empty (n : Nat) :
    SimRel n (AdjacencyListGraph.empty n) (AdjacencyMatrixGraph.empty n) := by
  constructor <;>
    simp [AdjacencyListGraph.empty, AdjacencyMatrixGraph.empty, AdjacencyMatrixGraph.memPairs]

theorem simRel_insertEdge {n : Nat} {lg : AdjacencyListGraph} {mg : AdjacencyMatrixGraph}
    (h : SimRel n lg mg) (u v : Nat) (hu : u < n) (hv : v < n) (huv : u ≠ v)
    (hmem : v ∉ lg.adjacency_list u) :
    SimRel n (lg.insertEdge u v) (mg.insertEdge u v) := by
  have hflag : mg.adjacency_matrix u v = false := by
    rw [← Bool.not_eq_true]
    exact fun hc => hmem ((h.edges_iff u v).2 hc)
  have hpairs : (mg.insertEdge u v).memPairs = insert (u, v) mg.memPairs := by
    ext p
    obtain ⟨a, b⟩ := p
    simp only [AdjacencyMatrixGraph.memPairs, AdjacencyMatrixGraph.insertEdge,
      Finset.mem_filter, Finset.mem_product, Finset.mem_range, Finset.mem_insert, Prod.mk.injEq]
    by_cases hab : a = u ∧ b = v
    · obtain ⟨ha, hb⟩ := hab
      subst ha; subst hb
      simp [h.nvM, hu, hv]
    · rw [if_neg hab]
      constructor
      · rintro ⟨⟨ha, hb⟩, hm⟩
        exact Or.inr ⟨⟨ha, hb⟩, hm⟩
      · rintro (hab2 | ⟨⟨ha, hb⟩, hm⟩)
        · exact absurd hab2 hab
        · exact ⟨⟨ha, hb⟩, hm⟩
  have hnotin : (u, v) ∉ mg.memPairs := by
    simp [AdjacencyMatrixGraph.memPairs, hflag]
  refine ⟨?_, ?_, ?_, ?_, ?_, ?_, ?_, ?_⟩
  · simpa [AdjacencyListGraph.insertEdge] using h.nvL
  · simpa [AdjacencyMatrixGraph.insertEdge] using h.nvM
  · simp [AdjacencyListGraph.insertEdge, AdjacencyMatrixGraph.insertEdge, h.ne]
  · intro a b
    simp only [AdjacencyListGraph.insertEdge, AdjacencyMatrixGraph.insertEdge]
    by_cases ha : a = u
    · subst ha
      rw [if_pos rfl]
      by_cases hb : b = v
      · subst hb
        simp
      · have hab : ¬(a = a ∧ b = v) := fun hc => hb hc.2
        rw [if_neg hab]
        simp only [List.mem_append, List.mem_singleton, hb, or_false]
        exact h.edges_iff a b
    · have hab : ¬(a = u ∧ b = v) := fun hc => ha hc.1
      rw [if_neg ha, if_neg hab]
      exact h.edges_iff a b
  · intro a b hab
    simp only [AdjacencyListGraph.insertEdge] at hab
    by_cases ha : a = u
    · subst ha
      rw [if_pos rfl] at hab
      rcases List.mem_append.1 hab with hm | hm
      · exact h.wf a b hm
      · rw [List.mem_singleton] at hm
        subst hm
        exact ⟨hu, hv, huv⟩
    · rw [if_neg ha] at hab
      exact h.wf a b hab
  · intro a
    simp only [AdjacencyListGraph.insertEdge]
    by_cases ha : a = u
    · subst ha
      rw [if_pos rfl]
      simp [List.nodup_append, h.nd a, hmem]
    · rw [if_neg ha]
      exact h.nd a
  · intro a b hab
    simp only [AdjacencyListGraph.insertEdge, AdjacencyMatrixGraph.insertEdge] at hab ⊢
    by_cases hp : (a, b) = (u, v)
    · rw [Prod.mk.injEq] at hp
      obtain ⟨ha, hb⟩ := hp
      subst ha; subst hb
      simp
    · have hab2 : ¬(a = u ∧ b = v) := by
        intro hc
        exact hp (by rw [hc.1, hc.2])
      rw [if_neg hp, if_neg hab2]
      have hold : b ∈ lg.adjacency_list a := by
        by_cases ha : a = u
        · subst ha
          rw [if_pos rfl] at hab
          rcases List.mem_append.1 hab with hm | hm
          · exact hm
          · rw [List.mem_singleton] at hm
            subst hm
            exact absurd rfl hp
        · rwa [if_neg ha] at hab
      exact h.wt a b hold
  · rw [hpairs, Finset.card_insert_of_not_mem hnotin]
    simp only [AdjacencyMatrixGraph.insertEdge]
    rw [h.cnt]
    push_cast
    ring

theorem simRel_eraseEdge {n : Nat} {lg : AdjacencyListGraph} {mg : AdjacencyMatrixGraph}
    (h : SimRel n lg mg) (u v : Nat) (hmem : v ∈ lg.adjacency_list u) :
    SimRel n (lg.eraseEdge u v) (mg.eraseEdge u v) := by
  obtain ⟨hu, hv, huv⟩ := h.wf u v hmem
  have hflag : mg.adjacency_matrix u v = true := (h.edges_iff u v).1 hmem
  have hin : (u, v) ∈ mg.memPairs := by
    simp [AdjacencyMatrixGraph.memPairs, hflag, h.nvM, hu, hv]
  have hpairs : (mg.eraseEdge u v).memPairs = mg.memPairs.erase (u, v) := by
    ext p
    obtain ⟨a, b⟩ := p
    simp only [AdjacencyMatrixGraph.memPairs, AdjacencyMatrixGraph.eraseEdge,
      Finset.mem_filter, Finset.mem_product, Finset.mem_range, Finset.mem_erase, ne_eq,
      Prod.mk.injEq]
    by_cases hab : a = u ∧ b = v
    · obtain ⟨ha, hb⟩ := hab
      subst ha; subst hb
      simp
    · rw [if_neg hab]
      constructor
      · rintro ⟨⟨ha, hb⟩, hm⟩
        exact ⟨hab, ⟨ha, hb⟩, hm⟩
      · rintro ⟨_, ⟨ha, hb⟩, hm⟩
        exact ⟨⟨ha, hb⟩, hm⟩
  refine ⟨?_, ?_, ?_, ?_, ?_, ?_, ?_, ?_⟩
  · simpa [AdjacencyListGraph.eraseEdge] using h.nvL
  · simpa [AdjacencyMatrixGraph.eraseEdge] using h.nvM
  · simp [AdjacencyListGraph.eraseEdge, AdjacencyMatrixGraph.eraseEdge, h.ne]
  · intro a b
    simp only [AdjacencyListGraph.eraseEdge, AdjacencyMatrixGraph.eraseEdge]
    by_cases ha : a = u
    · subst ha
      rw [if_pos rfl]
      by_cases hb : b = v
      · subst hb
        simp [(h.nd a).mem_erase_iff]
      · have hab : ¬(a = a ∧ b = v) := fun hc => hb hc.2
        rw [if_neg hab, (h.nd a).mem_erase_iff]
        simp only [hb, ne_eq, not_false_iff, true_and]
        exact h.edges_iff a b
    · have hab : ¬(a = u ∧ b = v) := fun hc => ha hc.1
      rw [if_neg ha, if_neg hab]
      exact h.edges_iff a b
  · intro a b hab
    simp only [AdjacencyListGraph.eraseEdge] at hab
    by_cases ha : a = u
    · subst ha
      rw [if_pos rfl] at hab
      exact h.wf a b (List.mem_of_mem_erase hab)
    · rw [if_neg ha] at hab
      exact h.wf a b hab
  · intro a
    simp only [AdjacencyListGraph.eraseEdge]
    by_cases ha : a = u
    · subst ha
      rw [if_pos rfl]
      exact (h.nd a).erase v
    · rw [if_neg ha]
      exact h.nd a
  · intro a b hab
    simp only [AdjacencyListGraph.eraseEdge, AdjacencyMatrixGraph.eraseEdge] at hab ⊢
    have hold : b ∈ lg.adjacency_list a ∧ ¬(a, b) = (u, v) := by
      by_cases ha : a = u
      · subst ha
        rw [if_pos rfl] at hab
        rw [(h.nd a).mem_erase_iff] at hab
        exact ⟨hab.2, fun hc => hab.1 (congrArg Prod.snd hc)⟩
      · rw [if_neg ha] at hab
        exact ⟨hab, fun hc => ha (congrArg Prod.fst hc)⟩
    have hab2 : ¬(a = u ∧ b = v) := by
      intro hc
      exact hold.2 (by rw [hc.1, hc.2])
    rw [if_neg hold.2, if_neg hab2]
    exact h.wt a b hold.1
  · have h1 : 1 ≤ mg.memPairs.card := Finset.card_pos.2 ⟨(u, v), hin⟩
    rw [hpairs, Finset.card_erase_of_mem hin, Nat.cast_sub h1]
    simp only [AdjacencyMatrixGraph.eraseEdge]
    rw [h.cnt]
    push_cast
    ring

theorem simRel_setWeight {n : Nat} {lg : AdjacencyListGraph} {mg : AdjacencyMatrixGraph}
    (h : SimRel n lg mg) (u v : Nat) (w : ℚ) (hmem : v ∈ lg.adjacency_list u) :
    SimRel n (lg.writeWeight u v w) (mg.writeWeight u v w) := by
  refine ⟨h.nvL, h.nvM, h.ne, h.edges_iff, h.wf, h.nd, ?_, ?_⟩
  · intro a b hab
    simp only [AdjacencyListGraph.writeWeight, AdjacencyMatrixGraph.writeWeight] at hab ⊢
    by_cases hp : (a, b) = (u, v)
    · rw [Prod.mk.injEq] at hp
      obtain ⟨ha, hb⟩ := hp
      subst ha; subst hb
      simp
    · have hab2 : ¬(a = u ∧ b = v) := by
        intro hc
        exact hp (by rw [hc.1, hc.2])
      rw [if_neg hp, if_neg hab2]
      exact h.wt a b hab
  · have hmp : (mg.writeWeight u v w).memPairs = mg.memPairs := rfl
    rw [hmp]
    exact h.cnt

theorem simRel_applyOp {n : Nat} {lg : AdjacencyListGraph} {mg : AdjacencyMatrixGraph}
    (h : SimRel n lg mg) (op : GraphOp) :
    SimRel n (lg.applyOp op) (mg.applyOp op) := by
  cases op with
  | addEdge u v =>
    simp only [AdjacencyListGraph.applyOp, AdjacencyMatrixGraph.applyOp,
      AdjacencyListGraph.add_edge, AdjacencyMatrixGraph.add_edge, h.nvL, h.nvM]
    by_cases hu : u < n
    · rw [if_pos hu, if_pos hu]
      by_cases hv : v < n
      · rw [if_pos hv, if_pos hv]
        by_cases huv : u = v
        · rw [if_pos huv, if_pos huv]
          exact h
        · rw [if_neg huv, if_neg huv]
          by_cases hmem : v ∈ lg.adjacency_list u
          · have hflag : mg.adjacency_matrix u v = true := (h.edges_iff u v).1 hmem
            rw [if_pos hmem, if_pos hflag]
            exact h
          · have hflag : mg.adjacency_matrix u v = false := by
              rw [← Bool.not_eq_true]
              exact fun hc => hmem ((h.edges_iff u v).2 hc)
            rw [if_neg hmem, if_neg (by simp [hflag])]
            exact simRel_insertEdge h u v hu hv huv hmem
      · rw [if_neg hv, if_neg hv]
        exact h
    · rw [if_neg hu, if_neg hu]
      exact h
  | removeEdge u v =>
    simp only [AdjacencyListGraph.applyOp, AdjacencyMatrixGraph.applyOp,
      AdjacencyListGraph.remove_edge, AdjacencyMatrixGraph.remove_edge, h.nvL, h.nvM]
    by_cases hu : u < n
    · rw [if_pos hu, if_pos hu]
      by_cases hv : v < n
      · rw [if_pos hv, if_pos hv]
        by_cases hmem : v ∈ lg.adjacency_list u
        · have hflag : mg.adjacency_matrix u v = true := (h.edges_iff u v).1 hmem
          rw [if_pos hmem, if_pos hflag]
          exact simRel_eraseEdge h u v hmem
        · have hflag : mg.adjacency_matrix u v = false := by
            rw [← Bool.not_eq_true]
            exact fun hc => hmem ((h.edges_iff u v).2 hc)
          rw [if_neg hmem, if_neg (by simp [hflag])]
          exact h
      · rw [if_neg hv, if_neg hv]
        exact h
    · rw [if_neg hu, if_neg hu]
      exact h
  | setEdgeWeight u v w =>
    simp only [AdjacencyListGraph.applyOp, AdjacencyMatrixGraph.applyOp,
      AdjacencyListGraph.set_edge_weight, AdjacencyMatrixGraph.set_edge_weight, h.nvL, h.nvM]
    by_cases hu : u < n
    · rw [if_pos hu, if_pos hu]
      by_cases hv : v < n
      · rw [if_pos hv, if_pos hv]
        by_cases hmem : v ∈ lg.adjacency_list u
        · have hflag : mg.adjacency_matrix u v = true := (h.edges_iff u v).1 hmem
          rw [if_pos hmem, if_pos hflag]
          exact simRel_setWeight h u v w hmem
        · have hflag : mg.adjacency_matrix u v = false := by
            rw [← Bool.not_eq_true]
            exact fun hc => hmem ((h.edges_iff u v).2 hc)
          rw [if_neg hmem, if_neg (by simp [hflag])]
          exact h
      · rw [if_neg hv, if_neg hv]
        exact h
    · rw [if_neg hu, if_neg hu]
      exact h

theorem simRel_foldl {n : Nat} (ops : List GraphOp) :
    ∀ {lg : AdjacencyListGraph} {mg : AdjacencyMatrixGraph}, SimRel n lg mg →
      SimRel n (ops.foldl AdjacencyListGraph.applyOp lg)
        (ops.foldl AdjacencyMatrixGraph.applyOp mg) := by
  induction ops with
  | nil => exact fun h => h
  | cons op ops ih =>
    intro lg mg h
    exact ih (simRel_applyOp h op)

/-- Replaying one call sequence against both representations keeps them in
simulation: the backbone of the representation-equivalence claims. -/
theorem simRel_run (n : Nat) (ops : List GraphOp) :
    SimRel n (AdjacencyListGraph.run n ops) (AdjacencyMatrixGraph.run n ops) :=
  simRel_foldl ops (simRel_empty n)

theorem simRel_succ_perm {n : Nat} {lg : AdjacencyListGraph} {mg : AdjacencyMatrixGraph}
    (h : SimRel n lg mg) (u : Nat) :
    (lg.adjacency_list u).Perm
      ((List.range n).filter (fun v => mg.adjacency_matrix u v)) := by
  apply (List.perm_ext_iff_of_nodup (h.nd u) ((List.nodup_range n).filter _)).2
  intro a
  simp only [List.mem_filter, List.mem_range]
  constructor
  · intro ha
    exact ⟨(h.wf u a ha).2.1, (h.edges_iff u a).1 ha⟩
  · rintro ⟨_, hm⟩
    exact (h.edges_iff u a).2 hm

theorem simRel_has_edge {n : Nat} {lg : AdjacencyListGraph} {mg : AdjacencyMatrixGraph}
    (h : SimRel n lg mg) (u v : Nat) :
    lg.has_edge u v = mg.has_edge u v := by
  simp only [AdjacencyListGraph.has_edge, AdjacencyMatrixGraph.has_edge, h.nvL, h.nvM]
  by_cases hu : u < n
  · rw [if_pos hu, if_pos hu]
    by_cases hv : v < n
    · rw [if_pos hv, if_pos hv]
      by_cases hm : v ∈ lg.adjacency_list u
      · simp [hm, (h.edges_iff u v).1 hm]
      · have hflag : mg.adjacency_matrix u v = false := by
          rw [← Bool.not_eq_true]
          exact fun hc => hm ((h.edges_iff u v).2 hc)
        simp [hm, hflag]
    · rw [if_neg hv, if_neg hv]
  · rw [if_neg hu, if_neg hu]

theorem simRel_pred_lists {n : Nat} {lg : AdjacencyListGraph} {mg : AdjacencyMatrixGraph}
    (h : SimRel n lg mg) (u : Nat) :
    ((List.range n).filter (fun v => decide (u ∈ lg.adjacency_list v))) =
      ((List.range n).filter (fun v => mg.adjacency_matrix v u)) := by
  apply List.filter_congr
  intro a _
  by_cases hm : u ∈ lg.adjacency_list a
  · simp [hm, (h.edges_iff a u).1 hm]
  · have hflag : mg.adjacency_matrix a u = false := by
      rw [← Bool.not_eq_true]
      exact fun hc => hm ((h.edges_iff a u).2 hc)
    simp [hm, hflag]

theorem simRel_get_weight {n : Nat} {lg : AdjacencyListGraph} {mg : AdjacencyMatrixGraph}
    (h : SimRel n lg mg) (u v : Nat) :
    lg.get_edge_weight u v = mg.get_edge_weight u v := by
  simp only [AdjacencyListGraph.get_edge_weight, AdjacencyMatrixGraph.get_edge_weight,
    h.nvL, h.nvM]
  by_cases hu : u < n
  · rw [if_pos hu, if_pos hu]
    by_cases hv : v < n
    · rw [if_pos hv, if_pos hv]
      by_cases hm : v ∈ lg.adjacency_list u
      · have hflag : mg.adjacency_matrix u v = true := (h.edges_iff u v).1 hm
        rw [if_pos hm, if_pos hflag, h.wt u v hm]
      · have hflag : mg.adjacency_matrix u v = false := by
          rw [← Bool.not_eq_true]
          exact fun hc => hm ((h.edges_iff u v).2 hc)
        rw [if_neg hm, if_neg (by simp [hflag])]
    · rw [if_neg hv, if_neg hv]
  · rw [if_neg hu, if_neg hu]

/-- The directed triangle 0 -> 1 -> 2 -> 0 used by the spec's worked example,
replayed against both representations. -/
def triOps : List GraphOp := [.addEdge 0 1, .addEdge 1 2, .addEdge 2 0]

def triL : AdjacencyListGraph := AdjacencyListGraph.run 3 triOps

def triM : AdjacencyMatrixGraph := AdjacencyMatrixGraph.run 3 triOps

/-- C1 is false as stated: after replaying `add_edge(0,2); add_edge(0,1)` on
both three-vertex representations, `get_successors(0)` returns `[2, 1]` from
the list representation (insertion order) but `[1, 2]` from the matrix
representation (index order), so the two representations do not return equal
results for every query listed by the claim. -/
theorem claim1_counterexample :
    (AdjacencyListGraph.run 3 [.addEdge 0 2, .addEdge 0 1]).get_successors 0 ≠
      (AdjacencyMatrixGraph.run 3 [.addEdge 0 2, .addEdge 0 1]).get_successors 0 := by
  decide

/-- C1 amended: for every vertex count, every call sequence replayed
identically against both representations, and all in-range `u`, `v`, the two
representations return equal results for `has_edge`, `get_vertex_in_degree`,
`get_vertex_out_degree`, `get_predecessors` and `get_edge_weight`;
`get_successors` agrees as a multiset (same vertices, not necessarily in the
same order). -/
theorem claim1_amended (n : Nat) (ops : List GraphOp) (u v : Nat)
    (hu : u < n) (hv : v < n) :
    (AdjacencyListGraph.run n ops).has_edge u v =
      (AdjacencyMatrixGraph.run n ops).has_edge u v ∧
    (AdjacencyListGraph.run n ops).get_vertex_in_degree u =
      (AdjacencyMatrixGraph.run n ops).get_vertex_in_degree u ∧
    (AdjacencyListGraph.run n ops).get_vertex_out_degree u =
      (AdjacencyMatrixGraph.run n ops).get_vertex_out_degree u ∧
    (AdjacencyListGraph.run n ops).get_predecessors u =
      (AdjacencyMatrixGraph.run n ops).get_predecessors u ∧
    (∃ sl sm, (AdjacencyListGraph.run n ops).get_successors u = .ok sl ∧
      (AdjacencyMatrixGraph.run n ops).get_successors u = .ok sm ∧ sl.Perm sm) ∧
    (AdjacencyListGraph.run n ops).get_edge_weight u v =
      (AdjacencyMatrixGraph.run n ops).get_edge_weight u v := by
  have h := simRel_run n ops
  refine ⟨simRel_has_edge h u v, ?_, ?_, ?_, ?_, simRel_get_weight h u v⟩
  · simp only [AdjacencyListGraph.get_vertex_in_degree,
      AdjacencyMatrixGraph.get_vertex_in_degree, h.nvL, h.nvM, if_pos hu]
    rw [simRel_pred_lists h u]
  · simp only [AdjacencyListGraph.get_vertex_out_degree,
      AdjacencyMatrixGraph.get_vertex_out_degree, h.nvL, h.nvM, if_pos hu]
    exact congrArg Except.ok (simRel_succ_perm h u).length_eq
  · simp only [AdjacencyListGraph.get_predecessors,
      AdjacencyMatrixGraph.get_predecessors, h.nvL, h.nvM, if_pos hu]
    rw [simRel_pred_lists h u]
  · exact ⟨_, _, by simp [AdjacencyListGraph.get_successors, h.nvL, hu],
      by simp [AdjacencyMatrixGraph.get_successors, h.nvM, hu], simRel_succ_perm h u⟩

theorem claim1_amended_witness :
    (0 : Nat) < 3 ∧ (1 : Nat) < 3 ∧
      (AdjacencyListGraph.run 3 [.addEdge 0 2, .addEdge 0 1]).get_vertex_out_degree 0 =
        (AdjacencyMatrixGraph.run 3 [.addEdge 0 2, .addEdge 0 1]).get_vertex_out_degree 0 :=
  ⟨by decide, by decide,
    (claim1_amended 3 [.addEdge 0 2, .addEdge 0 1] 0 1 (by decide) (by decide)).2.2.1⟩

/-- The set of distinct directed in-range pairs `(u, v)` with `u ≠ v` for
which `has_edge(u, v)` answers true: the quantity named by C2. -/
def AdjacencyListGraph.presentPairs (g : AdjacencyListGraph) : Finset (Nat × Nat) :=
  (Finset.range g.num_vertices ×ˢ Finset.range g.num_vertices).filter
    (fun p => p.1 ≠ p.2 ∧ g.has_edge p.1 p.2 = Except.ok true)

/-- Matrix-representation version of `presentPairs`. -/
def AdjacencyMatrixGraph.presentPairs (g : AdjacencyMatrixGraph) : Finset (Nat × Nat) :=
  (Finset.range g.num_vertices ×ˢ Finset.range g.num_vertices).filter
    (fun p => p.1 ≠ p.2 ∧ g.has_edge p.1 p.2 = Except.ok true)

theorem simRel_presentPairs_M {n : Nat} {lg : AdjacencyListGraph} {mg : AdjacencyMatrixGraph}
    (h : SimRel n lg mg) : mg.presentPairs = mg.memPairs := by
  unfold AdjacencyMatrixGraph.presentPairs AdjacencyMatrixGraph.memPairs
  apply Finset.filter_congr
  rintro ⟨a, b⟩ hp
  simp only [Finset.mem_product, Finset.mem_range] at hp
  obtain ⟨ha, hb⟩ := hp
  simp only [AdjacencyMatrixGraph.has_edge, if_pos ha, if_pos hb, Except.ok.injEq]
  constructor
  · rintro ⟨_, hm⟩
    exact hm
  · intro hm
    exact ⟨(h.wf a b ((h.edges_iff a b).2 hm)).2.2, hm⟩

theorem simRel_presentPairs_L {n : Nat} {lg : AdjacencyListGraph} {mg : AdjacencyMatrixGraph}
    (h : SimRel n lg mg) : lg.presentPairs = mg.memPairs := by
  unfold AdjacencyListGraph.presentPairs AdjacencyMatrixGraph.memPairs
  rw [h.nvL, h.nvM]
  apply Finset.filter_congr
  rintro ⟨a, b⟩ hp
  simp only [Finset.mem_product, Finset.mem_range] at hp
  obtain ⟨ha, hb⟩ := hp
  rw [← h.nvL] at ha hb
  simp only [AdjacencyListGraph.has_edge, if_pos ha, if_pos hb, Except.ok.injEq,
    decide_eq_true_eq]
  constructor
  · rintro ⟨_, hm⟩
    exact (h.edges_iff a b).1 hm
  · intro hm
    have hmem := (h.edges_iff a b).2 hm
    exact ⟨(h.wf a b hmem).2.2, hmem⟩

/-- C2: for both representations, after every call sequence replayed from the
empty graph (failed calls are no-ops, so this covers in particular every
sequence of successful `add_edge`/`remove_edge` calls), the `num_edges`
counter equals the number of distinct directed pairs `(u, v)` with `u ≠ v`
for which `has_edge(u, v)` is true. -/
theorem claim2 (n : Nat) (ops : List GraphOp) :
    (AdjacencyListGraph.run n ops).num_edges =
      ((AdjacencyListGraph.run n ops).presentPairs.card : Int) ∧
    (AdjacencyMatrixGraph.run n ops).num_edges =
      ((AdjacencyMatrixGraph.run n ops).presentPairs.card : Int) := by
  have h := simRel_run n ops
  constructor
  · rw [simRel_presentPairs_L h, h.ne]
    exact h.cnt
  · rw [simRel_presentPairs_M h]
    exact h.cnt

/-- C3: for in-range `u ≠ v` in either representation, `add_edge(u,v)` on an
already-present edge and `remove_edge(u,v)` on an absent edge both return
successfully with the graph state (edges, counter, weights) unchanged. -/
theorem claim3 (lg : AdjacencyListGraph) (mg : AdjacencyMatrixGraph) (u v : Nat)
    (huL : u < lg.num_vertices) (hvL : v < lg.num_vertices)
    (huM : u < mg.num_vertices) (hvM : v < mg.num_vertices) (huv : u ≠ v) :
    (lg.has_edge u v = .ok true → lg.add_edge u v = .ok lg) ∧
    (lg.has_edge u v = .ok false → lg.remove_edge u v = .ok lg) ∧
    (mg.has_edge u v = .ok true → mg.add_edge u v = .ok mg) ∧
    (mg.has_edge u v = .ok false → mg.remove_edge u v = .ok mg) := by
  refine ⟨?_, ?_, ?_, ?_⟩
  · intro hE
    have hm : v ∈ lg.adjacency_list u := by
      simp only [AdjacencyListGraph.has_edge, if_pos huL, if_pos hvL, Except.ok.injEq,
        decide_eq_true_eq] at hE
      exact hE
    simp [AdjacencyListGraph.add_edge, huL, hvL, huv, hm]
  · intro hE
    have hm : v ∉ lg.adjacency_list u := by
      simp only [AdjacencyListGraph.has_edge, if_pos huL, if_pos hvL, Except.ok.injEq] at hE
      simpa using hE
    simp [AdjacencyListGraph.remove_edge, huL, hvL, hm]
  · intro hE
    have hm : mg.adjacency_matrix u v = true := by
      simp only [AdjacencyMatrixGraph.has_edge, if_pos huM, if_pos hvM, Except.ok.injEq] at hE
      exact hE
    simp [AdjacencyMatrixGraph.add_edge, huM, hvM, huv, hm]
  · intro hE
    have hm : mg.adjacency_matrix u v = false := by
      simp only [AdjacencyMatrixGraph.has_edge, if_pos huM, if_pos hvM, Except.ok.injEq] at hE
      exact hE
    simp [AdjacencyMatrixGraph.remove_edge, huM, hvM, hm]

theorem claim3_witness :
    triL.add_edge 0 1 = .ok triL ∧ triL.remove_edge 1 0 = .ok triL ∧
    triM.add_edge 0 1 = .ok triM ∧ triM.remove_edge 1 0 = .ok triM :=
  ⟨(claim3 triL triM 0 1 (by decide) (by decide) (by decide) (by decide) (by decide)).1
      (by decide),
   (claim3 triL triM 1 0 (by decide) (by decide) (by decide) (by decide) (by decide)).2.1
      (by decide),
   (claim3 triL triM 0 1 (by decide) (by decide) (by decide) (by decide) (by decide)).2.2.1
      (by decide),
   (claim3 triL triM 1 0 (by decide) (by decide) (by decide) (by decide) (by decide)).2.2.2
      (by decide)⟩

/-- C4: for every in-range vertex `u` and both representations, `add_edge(u,u)`
fails with the self-loop error (`InvalidEdgeException.loop_not_allowed`); since
the raise happens inside `_validate_edge` before any mutation, the failed call
produces no successor state and the graph is unchanged. -/
theorem claim4 (lg : AdjacencyListGraph) (mg : AdjacencyMatrixGraph) (u : Nat)
    (hL : u < lg.num_vertices) (hM : u < mg.num_vertices) :
    lg.add_edge u u = .error (.loopNotAllowed u) ∧
    mg.add_edge u u = .error (.loopNotAllowed u) := by
  constructor
  · simp [AdjacencyListGraph.add_edge, hL]
  · simp [AdjacencyMatrixGraph.add_edge, hM]

theorem claim4_witness :
    triL.add_edge 0 0 = .error (.loopNotAllowed 0) ∧
    triM.add_edge 0 0 = .error (.loopNotAllowed 0) :=
  claim4 triL triM 0 (by decide) (by decide)

/-- C5: for in-range `u ≠ v` with no edge present, `set_edge_weight` and
`get_edge_weight` fail with the `edge_not_found` error in both
representations, and that error differs from the self-loop error for every
vertex; since the raise precedes any mutation, the graph is unchanged. -/
theorem claim5 (lg : AdjacencyListGraph) (mg : AdjacencyMatrixGraph) (u v : Nat) (w : ℚ)
    (huL : u < lg.num_vertices) (hvL : v < lg.num_vertices)
    (huM : u < mg.num_vertices) (hvM : v < mg.num_vertices) (huv : u ≠ v)
    (hL : lg.has_edge u v = .ok false) (hM : mg.has_edge u v = .ok false) :
    lg.set_edge_weight u v w = .error (.edgeNotFound u v) ∧
    lg.get_edge_weight u v = .error (.edgeNotFound u v) ∧
    mg.set_edge_weight u v w = .error (.edgeNotFound u v) ∧
    mg.get_edge_weight u v = .error (.edgeNotFound u v) ∧
    ∀ x, (GraphError.edgeNotFound u v) ≠ (GraphError.loopNotAllowed x) := by
  have hmL : v ∉ lg.adjacency_list u := by
    simp only [AdjacencyListGraph.has_edge, if_pos huL, if_pos hvL, Except.ok.injEq] at hL
    simpa using hL
  have hmM : mg.adjacency_matrix u v = false := by
    simp only [AdjacencyMatrixGraph.has_edge, if_pos huM, if_pos hvM, Except.ok.injEq] at hM
    exact hM
  refine ⟨?_, ?_, ?_, ?_, ?_⟩
  · simp [AdjacencyListGraph.set_edge_weight, huL, hvL, hmL]
  · simp [AdjacencyListGraph.get_edge_weight, huL, hvL, hmL]
  · simp [AdjacencyMatrixGraph.set_edge_weight, huM, hvM, hmM]
  · simp [AdjacencyMatrixGraph.get_edge_weight, huM, hvM, hmM]
  · intro x hc
    exact GraphError.noConfusion hc

theorem claim5_witness :
    triL.set_edge_weight 1 0 5 = .error (.edgeNotFound 1 0) ∧
    triL.get_edge_weight 1 0 = .error (.edgeNotFound 1 0) ∧
    triM.set_edge_weight 1 0 5 = .error (.edgeNotFound 1 0) ∧
    triM.get_edge_weight 1 0 = .error (.edgeNotFound 1 0) ∧
    ∀ x, (GraphError.edgeNotFound 1 0) ≠ (GraphError.loopNotAllowed x) :=
  claim5 triL triM 1 0 5 (by decide) (by decide) (by decide) (by decide) (by decide)
    (by decide) (by decide)

/-- C9: the matrix representation returns `get_successors`/`get_predecessors`
in strictly increasing index order; the list representation appends each newly
added edge at the end of the successor list (so successors appear in edge
insertion order); for identically replayed call sequences the two successor
lists agree as multisets; and on the concrete sequence `add_edge(1,3);
add_edge(1,2)` the two orders actually differ (`[3, 2]` vs `[2, 3]`). -/
theorem claim9 (lg : AdjacencyListGraph) (mg : AdjacencyMatrixGraph)
    (n u v : Nat) (ops : List GraphOp) :
    (u < mg.num_vertices →
      ∃ s p, mg.get_successors u = .ok s ∧ s.Sorted (· < ·) ∧
        mg.get_predecessors u = .ok p ∧ p.Sorted (· < ·)) ∧
    (u < lg.num_vertices → v < lg.num_vertices → u ≠ v →
      lg.has_edge u v = .ok false →
      ∃ g2, lg.add_edge u v = .ok g2 ∧
        g2.get_successors u = .ok (lg.adjacency_list u ++ [v])) ∧
    (u < n →
      ∃ sl sm, (AdjacencyListGraph.run n ops).get_successors u = .ok sl ∧
        (AdjacencyMatrixGraph.run n ops).get_successors u = .ok sm ∧ sl.Perm sm) ∧
    (AdjacencyListGraph.run 4 [.addEdge 1 3, .addEdge 1 2]).get_successors 1 =
      .ok [3, 2] ∧
    (AdjacencyMatrixGraph.run 4 [.addEdge 1 3, .addEdge 1 2]).get_successors 1 =
      .ok [2, 3] := by
  refine ⟨?_, ?_, ?_, by decide, by decide⟩
  · intro hu
    refine ⟨(List.range mg.num_vertices).filter (fun x => mg.adjacency_matrix u x),
      (List.range mg.num_vertices).filter (fun x => mg.adjacency_matrix x u),
      by simp [AdjacencyMatrixGraph.get_successors, hu],
      (List.sorted_lt_range mg.num_vertices).filter _,
      by simp [AdjacencyMatrixGraph.get_predecessors, hu],
      (List.sorted_lt_range mg.num_vertices).filter _⟩
  · intro hu hv huv hE
    have hm : v ∉ lg.adjacency_list u := by
      simp only [AdjacencyListGraph.has_edge, if_pos hu, if_pos hv, Except.ok.injEq] at hE
      simpa using hE
    refine ⟨lg.insertEdge u v, by simp [AdjacencyListGraph.add_edge, hu, hv, huv, hm], ?_⟩
    simp [AdjacencyListGraph.get_successors, AdjacencyListGraph.insertEdge, hu]
  · intro hu
    have h := simRel_run n ops
    exact ⟨_, _, by simp [AdjacencyListGraph.get_successors, h.nvL, hu],
      by simp [AdjacencyMatrixGraph.get_successors, h.nvM, hu], simRel_succ_perm h u⟩

theorem claim9_witness :
    ((0 : Nat) < triM.num_vertices) ∧
    (∃ s p, triM.get_successors 0 = .ok s ∧ s.Sorted (· < ·) ∧
      triM.get_predecessors 0 = .ok p ∧ p.Sorted (· < ·)) :=
  ⟨by decide, (claim9 triL triM 3 0 1 triOps).1 (by decide)⟩

/-- C10: in both representations, `add_edge` writes the stored weight only on
a fresh insert.  If the edge exists with stored weight `w`, a repeated
`add_edge` leaves `get_edge_weight` at `w`; after `remove_edge` followed by
`add_edge`, `get_edge_weight` is `0.0` regardless of any earlier weight.
The `Nodup` hypothesis on the successor list holds in every reachable list
graph (`SimRel.nd`). -/
theorem claim10 (lg : AdjacencyListGraph) (mg : AdjacencyMatrixGraph)
    (u v : Nat) (w wm : ℚ)
    (huL : u < lg.num_vertices) (hvL : v < lg.num_vertices)
    (huM : u < mg.num_vertices) (hvM : v < mg.num_vertices)
    (huv : u ≠ v) (hnd : (lg.adjacency_list u).Nodup) :
    (lg.get_edge_weight u v = .ok w →
      lg.add_edge u v = .ok lg ∧ lg.get_edge_weight u v = .ok w) ∧
    (∃ g1 g2, lg.remove_edge u v = .ok g1 ∧ g1.add_edge u v = .ok g2 ∧
      g2.get_edge_weight u v = .ok 0) ∧
    (mg.get_edge_weight u v = .ok wm →
      mg.add_edge u v = .ok mg ∧ mg.get_edge_weight u v = .ok wm) ∧
    (∃ g1 g2, mg.remove_edge u v = .ok g1 ∧ g1.add_edge u v = .ok g2 ∧
      g2.get_edge_weight u v = .ok 0) := by
  refine ⟨?_, ?_, ?_, ?_⟩
  · intro hget
    have hm : v ∈ lg.adjacency_list u := by
      by_cases hc : v ∈ lg.adjacency_list u
      · exact hc
      · simp [AdjacencyListGraph.get_edge_weight, huL, hvL, hc] at hget
    exact ⟨by simp [AdjacencyListGraph.add_edge, huL, hvL, huv, hm], hget⟩
  · by_cases hm : v ∈ lg.adjacency_list u
    · refine ⟨lg.eraseEdge u v, (lg.eraseEdge u v).insertEdge u v, ?_, ?_, ?_⟩
      · simp [AdjacencyListGraph.remove_edge, huL, hvL, hm]
      · have hnm : v ∉ (lg.adjacency_list u).erase v := fun hc =>
          (hnd.mem_erase_iff.1 hc).1 rfl
        simp [AdjacencyListGraph.add_edge, AdjacencyListGraph.eraseEdge, huL, hvL, huv, hnm]
      · simp [AdjacencyListGraph.get_edge_weight, AdjacencyListGraph.insertEdge,
          AdjacencyListGraph.eraseEdge, huL, hvL]
    · refine ⟨lg, lg.insertEdge u v, ?_, ?_, ?_⟩
      · simp [AdjacencyListGraph.remove_edge, huL, hvL, hm]
      · simp [AdjacencyListGraph.add_edge, huL, hvL, huv, hm]
      · simp [AdjacencyListGraph.get_edge_weight, AdjacencyListGraph.insertEdge, huL, hvL]
  · intro hget
    have hm : mg.adjacency_matrix u v = true := by
      by_cases hc : mg.adjacency_matrix u v
      · exact hc
      · simp [AdjacencyMatrixGraph.get_edge_weight, huM, hvM, hc] at hget
    exact ⟨by simp [AdjacencyMatrixGraph.add_edge, huM, hvM, huv, hm], hget⟩
  · by_cases hm : mg.adjacency_matrix u v = true
    · refine ⟨mg.eraseEdge u v, (mg.eraseEdge u v).insertEdge u v, ?_, ?_, ?_⟩
      · simp [AdjacencyMatrixGraph.remove_edge, huM, hvM, hm]
      · simp [AdjacencyMatrixGraph.add_edge, AdjacencyMatrixGraph.eraseEdge, huM, hvM, huv]
      · simp [AdjacencyMatrixGraph.get_edge_weight, AdjacencyMatrixGraph.insertEdge,
          AdjacencyMatrixGraph.eraseEdge, huM, hvM]
    · have hm0 : mg.adjacency_matrix u v = false := by
        rw [← Bool.not_eq_true]
        exact hm
      refine ⟨mg, mg.insertEdge u v, ?_, ?_, ?_⟩
      · simp [AdjacencyMatrixGraph.remove_edge, huM, hvM, hm0]
      · simp [AdjacencyMatrixGraph.add_edge, huM, hvM, huv, hm0]
      · simp [AdjacencyMatrixGraph.get_edge_weight, AdjacencyMatrixGraph.insertEdge, huM, hvM]

/-- A copy of the triangle list graph holding weight 7 on edge (0, 1),
used to witness the weight-preservation claim. -/
def triLW : AdjacencyListGraph :=
  match triL.set_edge_weight 0 1 7 with
  | .ok g => g
  | .error _ => triL

/-- A copy of the triangle matrix graph holding weight 7 on edge (0, 1). -/
def triMW : AdjacencyMatrixGraph :=
  match triM.set_edge_weight 0 1 7 with
  | .ok g => g
  | .error _ => triM

theorem claim10_witness :
    (triLW.add_edge 0 1 = .ok triLW ∧ triLW.get_edge_weight 0 1 = .ok 7) ∧
    (∃ g1 g2, triLW.remove_edge 0 1 = .ok g1 ∧ g1.add_edge 0 1 = .ok g2 ∧
      g2.get_edge_weight 0 1 = .ok 0) ∧
    (triMW.add_edge 0 1 = .ok triMW ∧ triMW.get_edge_weight 0 1 = .ok 7) ∧
    (∃ g1 g2, triMW.remove_edge 0 1 = .ok g1 ∧ g1.add_edge 0 1 = .ok g2 ∧
      g2.get_edge_weight 0 1 = .ok 0) :=
  ⟨(claim10 triLW triMW 0 1 7 7 (by decide) (by decide) (by decide) (by decide)
      (by decide) (by decide)).1 (by decide),
   (claim10 triLW triMW 0 1 7 7 (by decide) (by decide) (by decide) (by decide)
      (by decide) (by decide)).2.1,
   (claim10 triLW triMW 0 1 7 7 (by decide) (by decide) (by decide) (by decide)
      (by decide) (by decide)).2.2.1 (by decide),
   (claim10 triLW triMW 0 1 7 7 (by decide) (by decide) (by decide) (by decide)
      (by decide) (by decide)).2.2.2⟩

/-- Successor view of a list graph, as the metrics engines see it: for every
in-range `u`, `get_successors(u)` returns exactly `adjacency_list[u]`. -/
def AdjacencyListGraph.succView (g : AdjacencyListGraph) : Nat → List Nat :=
  g.adjacency_list

/-- Predecessor view of a list graph (`get_predecessors` body). -/
def AdjacencyListGraph.predView (g : AdjacencyListGraph) : Nat → List Nat :=
  fun u => (List.range g.num_vertices).filter (fun v => decide (u ∈ g.adjacency_list v))

/-- Out-degree view of a list graph (`get_vertex_out_degree` body). -/
def AdjacencyListGraph.outDegView (g : AdjacencyListGraph) : Nat → Nat :=
  fun u => (g.adjacency_list u).length

/-- Edge-existence view of a list graph (`has_edge` body for in-range args). -/
def AdjacencyListGraph.hasEdgeView (g : AdjacencyListGraph) : Nat → Nat → Bool :=
  fun u v => decide (v ∈ g.adjacency_list u)

/-- Successor view of a matrix graph (`get_successors` body). -/
def AdjacencyMatrixGraph.succView (g : AdjacencyMatrixGraph) : Nat → List Nat :=
  fun u => (List.range g.num_vertices).filter (fun v => g.adjacency_matrix u v)

/-- Predecessor view of a matrix graph (`get_predecessors` body). -/
def AdjacencyMatrixGraph.predView (g : AdjacencyMatrixGraph) : Nat → List Nat :=
  fun u => (List.range g.num_vertices).filter (fun v => g.adjacency_matrix v u)

/-- Out-degree view of a matrix graph (`get_vertex_out_degree` body). -/
def AdjacencyMatrixGraph.outDegView (g : AdjacencyMatrixGraph) : Nat → Nat :=
  fun u => ((List.range g.num_vertices).filter (fun v => g.adjacency_matrix u v)).length

/-- Edge-existence view of a matrix graph. -/
def AdjacencyMatrixGraph.hasEdgeView (g : AdjacencyMatrixGraph) : Nat → Nat → Bool :=
  g.adjacency_matrix

/-- Inner loop of the BFS in `structure_metrics.py` (`average_path_length`,
`diameter`): relax all successors of the dequeued vertex with distance `dv`,
collecting the newly discovered vertices in `acc` in order. -/
def bfsVisit (dv : Int) : List Nat → (Nat → Int) → List Nat → ((Nat → Int) × List Nat)
  | [], dist, acc => (dist, acc)
  | w :: ws, dist, acc =>
    if dist w < 0 then
      bfsVisit dv ws (fun x => if x = w then dv + 1 else dist x) (acc ++ [w])
    else
      bfsVisit dv ws dist acc

/-- The `while queue:` loop of the BFS, driven by fuel.  Each vertex is
enqueued at most once (a vertex is enqueued exactly when its distance turns
non-negative, which never reverts), so `n` dequeue steps always exhaust the
queue of the Python loop; `bfsDistances` passes fuel `n`. -/
def bfsLoop (succ : Nat → List Nat) : Nat → List Nat → (Nat → Int) → (Nat → Int)
  | 0, _, dist => dist
  | _ + 1, [], dist => dist
  | fuel + 1, x :: queue, dist =>
    let p := bfsVisit (dist x) (succ x) dist []
    bfsLoop succ fuel (queue ++ p.2) p.1

/-- BFS distance map from `source`: `distances = {v: -1 ...}; distances[source] = 0`
followed by the queue loop, exactly as in `structure_metrics.py`. -/
def bfsDistances (succ : Nat → List Nat) (n source : Nat) : Nat → Int :=
  bfsLoop succ n [source] (fun x => if x = source then 0 else -1)

/-- The `(total_distance, num_paths)` accumulation of
`StructureMetrics.average_path_length`: over all sources and all targets with
`target != source` and `distances[target] > 0`. -/
def pathAcc (succ : Nat → List Nat) (n : Nat) : Int × Int :=
  (List.range n).foldl
    (fun (acc : Int × Int) source =>
      (List.range n).foldl
        (fun acc2 target =>
          if target ≠ source ∧ 0 < bfsDistances succ n source target then
            (acc2.1 + bfsDistances succ n source target, acc2.2 + 1)
          else acc2)
        acc)
    (0, 0)

/-- Embedding of `StructureMetrics.average_path_length`: `total_distance / num_paths` when
at least one ordered reachable pair was counted, 0 otherwise (and 0 for
`n <= 1`). -/
def average_path_length (succ : Nat → List Nat) (n : Nat) : ℚ :=
  if n ≤ 1 then 0
  else
    if 0 < (pathAcc succ n).2 then
      ((pathAcc succ n).1 : ℚ) / ((pathAcc succ n).2 : ℚ)
    else 0

/-- The `max_distance` accumulation of `StructureMetrics.diameter`:
`if dist > max_distance: max_distance = dist` over every source and every
entry of its distance map, starting from 0. -/
def diameterScan (succ : Nat → List Nat) (n : Nat) : Int :=
  (List.range n).foldl
    (fun m source =>
      (List.range n).foldl
        (fun m2 target =>
          if m2 < bfsDistances succ n source target then bfsDistances succ n source target
          else m2)
        m)
    0

/-- Embedding of `StructureMetrics.diameter`: 0 for `n <= 1`, else the scan result if it is
positive and -1 otherwise. -/
def diameter (succ : Nat → List Nat) (n : Nat) : Int :=
  if n ≤ 1 then 0
  else if 0 < diameterScan succ n then diameterScan succ n else -1

/-- Embedding of `StructureMetrics.network_density`: `num_edges / (n * (n - 1))`, with 0
for `n <= 1` or a non-positive denominator. -/
def network_density (n : Nat) (num_edges : Int) : ℚ :=
  if n ≤ 1 then 0
  else
    if 0 < (n : Int) * ((n : Int) - 1) then
      (num_edges : ℚ) / (((n : Int) * ((n : Int) - 1) : Int) : ℚ)
    else 0

/-- The `(reciprocal_edges, total_edges)` accumulation of
`StructureMetrics.reciprocity`: over every source and every successor, check
whether the reverse edge exists. -/
def reciprocityAcc (succ : Nat → List Nat) (hasB : Nat → Nat → Bool) (n : Nat) : Int × Int :=
  (List.range n).foldl
    (fun (acc : Int × Int) u =>
      (succ u).foldl
        (fun acc2 v => (if hasB v u then acc2.1 + 1 else acc2.1, acc2.2 + 1))
        acc)
    (0, 0)

/-- Embedding of `StructureMetrics.reciprocity`: `reciprocal_edges / total_edges`; 0 when
`num_edges` is 0 or no successor was seen. -/
def reciprocity (succ : Nat → List Nat) (hasB : Nat → Nat → Bool) (n : Nat)
    (num_edges : Int) : ℚ :=
  if num_edges = 0 then 0
  else
    if 0 < (reciprocityAcc succ hasB n).2 then
      ((reciprocityAcc succ hasB n).1 : ℚ) / ((reciprocityAcc succ hasB n).2 : ℚ)
    else 0

/-- One vertex update of `CentralityMetrics.pagerank`: start from the teleport
term `(1 - damping) / n` and add `damping * rank[u] / out_degree(u)` for every
predecessor `u` with positive out-degree. -/
def pagerankStep (pred : Nat → List Nat) (outDeg : Nat → Nat) (n : Nat) (damping : ℚ)
    (pr : Nat → ℚ) : Nat → ℚ :=
  fun v =>
    (pred v).foldl
      (fun r u => if 0 < outDeg u then r + damping * (pr u / (outDeg u : ℚ)) else r)
      ((1 - damping) / (n : ℚ))

/-- The `max_diff` accumulation of one pagerank iteration over `range(n)`. -/
def prMaxDiff (n : Nat) (f g : Nat → ℚ) : ℚ :=
  (List.range n).foldl (fun m v => max m |f v - g v|) 0

/-- The iteration loop of `CentralityMetrics.pagerank`: run up to the given
number of iterations, stopping early as soon as `max_diff < tol`; the freshly
computed map is returned either way. -/
def pagerankLoop (pred : Nat → List Nat) (outDeg : Nat → Nat) (n : Nat)
    (damping tol : ℚ) : Nat → (Nat → ℚ) → (Nat → ℚ)
  | 0, pr => pr
  | iter + 1, pr =>
    if prMaxDiff n (pagerankStep pred outDeg n damping pr) pr < tol then
      pagerankStep pred outDeg n damping pr
    else
      pagerankLoop pred outDeg n damping tol iter (pagerankStep pred outDeg n damping pr)

/-- Embedding of `CentralityMetrics.pagerank` with its default arguments
(`damping = 0.85`, `max_iter = 100`, `tol = 1e-6`), starting from the uniform
map `1 / n`. -/
def pagerank (pred : Nat → List Nat) (outDeg : Nat → Nat) (n : Nat) : Nat → ℚ :=
  if n = 0 then fun _ => 0
  else pagerankLoop pred outDeg n (85 / 100) (1 / 1000000) 100 (fun _ => 1 / (n : ℚ))

/-- Embedding of `CommunityMetrics.bridging_ties` for a total community assignment: the
number of distinct community ids among a vertex's successors and predecessors
(each neighbor counted when it is a dict key, i.e. in range), divided by the
total number of distinct communities - except that the code returns 0.0 for
every vertex when there is only one community. -/
def bridging_ties (succ pred : Nat → List Nat) (n : Nat) (comm : Nat → Nat) : Nat → ℚ :=
  fun v =>
    if 1 < ((List.range n).map comm).dedup.length then
      (((((succ v ++ pred v).filter (fun x => decide (x < n))).map comm).dedup.length : Nat) : ℚ) /
        ((((List.range n).map comm).dedup.length : Nat) : ℚ)
    else 0

/-- The bridging-ties score exactly as the spec sentence words it: distinct
neighbor communities divided by the total number of distinct communities,
with no special case. -/
def bridgingSpec (succ pred : Nat → List Nat) (n : Nat) (comm : Nat → Nat) : Nat → ℚ :=
  fun v =>
    (((((succ v ++ pred v).filter (fun x => decide (x < n))).map comm).dedup.length : Nat) : ℚ) /
      ((((List.range n).map comm).dedup.length : Nat) : ℚ)

/-- For a 3-cycle (each vertex has exactly one predecessor, every out-degree
is 1), every pagerank iterate is constant across the three vertices, so the
returned scores are identical whatever iteration the convergence check stops
at.  This is the symmetry argument behind the spec's triangle example. -/
theorem pagerank_const_of_cycle3 (pred : Nat → List Nat) (outDeg : Nat → Nat)
    (h0 : pred 0 = [2]) (h1 : pred 1 = [0]) (h2 : pred 2 = [1])
    (ho0 : outDeg 0 = 1) (ho1 : outDeg 1 = 1) (ho2 : outDeg 2 = 1) :
    pagerank pred outDeg 3 0 = pagerank pred outDeg 3 1 ∧
    pagerank pred outDeg 3 1 = pagerank pred outDeg 3 2 := by
  have key : ∀ (pr : Nat → ℚ) (u v : Nat), pred v = [u] → outDeg u = 1 →
      pagerankStep pred outDeg 3 (85/100) pr v =
        (1 - 85/100) / 3 + (85/100) * (pr u / 1) := by
    intro pr u v hpv hou
    unfold pagerankStep
    rw [hpv]
    simp [hou]
  have hstep : ∀ pr : Nat → ℚ, pr 0 = pr 1 → pr 1 = pr 2 →
      pagerankStep pred outDeg 3 (85/100) pr 0 = pagerankStep pred outDeg 3 (85/100) pr 1 ∧
      pagerankStep pred outDeg 3 (85/100) pr 1 = pagerankStep pred outDeg 3 (85/100) pr 2 := by
    intro pr e01 e12
    have e02 : pr 0 = pr 2 := e01.trans e12
    rw [key pr 2 0 h0 ho2, key pr 0 1 h1 ho0, key pr 1 2 h2 ho1]
    exact ⟨by rw [e02], by rw [e01]⟩
  have hloop : ∀ (it : Nat) (pr : Nat → ℚ), pr 0 = pr 1 → pr 1 = pr 2 →
      pagerankLoop pred outDeg 3 (85/100) (1/1000000) it pr 0 =
        pagerankLoop pred outDeg 3 (85/100) (1/1000000) it pr 1 ∧
      pagerankLoop pred outDeg 3 (85/100) (1/1000000) it pr 1 =
        pagerankLoop pred outDeg 3 (85/100) (1/1000000) it pr 2 := by
    intro it
    induction it with
    | zero => exact fun pr e01 e12 => ⟨e01, e12⟩
    | succ it ih =>
      intro pr e01 e12
      obtain ⟨s01, s12⟩ := hstep pr e01 e12
      unfold pagerankLoop
      by_cases hc :
          prMaxDiff 3 (pagerankStep pred outDeg 3 (85/100) pr) pr < 1/1000000
      · simp only [if_pos hc]
        exact ⟨s01, s12⟩
      · simp only [if_neg hc]
        exact ih _ s01 s12
  unfold pagerank
  rw [if_neg (by decide : ¬ (3 = 0))]
  exact hloop 100 _ rfl rfl

/-- C6: on the directed triangle 0 -> 1 -> 2 -> 0, in either representation,
pagerank assigns all three vertices an identical score, the density is 0.5,
the reciprocity is 0.0, the average path length is 1.5 and the diameter
is 2. -/
theorem claim6 :
    (pagerank triL.predView triL.outDegView 3 0 = pagerank triL.predView triL.outDegView 3 1 ∧
      pagerank triL.predView triL.outDegView 3 1 = pagerank triL.predView triL.outDegView 3 2) ∧
    network_density 3 triL.num_edges = 1 / 2 ∧
    reciprocity triL.succView triL.hasEdgeView 3 triL.num_edges = 0 ∧
    average_path_length triL.succView 3 = 3 / 2 ∧
    diameter triL.succView 3 = 2 ∧
    (pagerank triM.predView triM.outDegView 3 0 = pagerank triM.predView triM.outDegView 3 1 ∧
      pagerank triM.predView triM.outDegView 3 1 = pagerank triM.predView triM.outDegView 3 2) ∧
    network_density 3 triM.num_edges = 1 / 2 ∧
    reciprocity triM.succView triM.hasEdgeView 3 triM.num_edges = 0 ∧
    average_path_length triM.succView 3 = 3 / 2 ∧
    diameter triM.succView 3 = 2 := by
  refine ⟨?_, ?_, ?_, ?_, by decide, ?_, ?_, ?_, ?_, by decide⟩
  · exact pagerank_const_of_cycle3 _ _ (by decide) (by decide) (by decide)
      (by decide) (by decide) (by decide)
  · have h : triL.num_edges = 3 := by decide
    rw [h]
    norm_num [network_density]
  · have h : triL.num_edges = 3 := by decide
    have ha : reciprocityAcc triL.succView triL.hasEdgeView 3 = (0, 3) := by decide
    rw [h]
    norm_num [reciprocity, ha]
  · have ha : pathAcc triL.succView 3 = (9, 6) := by decide
    norm_num [average_path_length, ha]
  · exact pagerank_const_of_cycle3 _ _ (by decide) (by decide) (by decide)
      (by decide) (by decide) (by decide)
  · have h : triM.num_edges = 3 := by decide
    rw [h]
    norm_num [network_density]
  · have h : triM.num_edges = 3 := by decide
    have ha : reciprocityAcc triM.succView triM.hasEdgeView 3 = (0, 3) := by decide
    rw [h]
    norm_num [reciprocity, ha]
  · have ha : pathAcc triM.succView 3 = (9, 6) := by decide
    norm_num [average_path_length, ha]

theorem foldl_max_le_self (l : List Int) (a : Int) : a ≤ l.foldl max a := by
  induction l generalizing a with
  | nil => exact le_refl a
  | cons x l ih => exact le_trans (le_max_left a x) (ih (max a x))

theorem foldl_max_le_of_mem {l : List Int} {x : Int} (hx : x ∈ l) (a : Int) :
    x ≤ l.foldl max a := by
  induction l generalizing a with
  | nil => cases hx
  | cons y l ih =>
    rw [List.foldl_cons]
    rcases List.mem_cons.1 hx with h | h
    · subst h
      exact le_trans (le_max_right a x) (foldl_max_le_self l (max a x))
    · exact ih h (max a y)

theorem foldl_max_attained (l : List Int) (a : Int) :
    l.foldl max a = a ∨ l.foldl max a ∈ l := by
  induction l generalizing a with
  | nil => exact Or.inl rfl
  | cons x l ih =>
    rcases ih (max a x) with h | h
    · rcases max_choice a x with hm | hm
      · exact Or.inl (by rw [List.foldl_cons, h, hm])
      · refine Or.inr ?_
        rw [List.foldl_cons, h, hm]
        exact List.mem_cons_self x l
    · exact Or.inr (List.mem_cons_of_mem x h)

/-- Every BFS distance value produced from every source, flattened into a
single list: membership in this list is exactly being `bfsDistances succ n s t`
for some in-range pair. -/
def allDists (succ : Nat → List Nat) (n : Nat) : List Int :=
  (List.range n).flatMap (fun s => (List.range n).map (fun t => bfsDistances succ n s t))

theorem mem_allDists {succ : Nat → List Nat} {n : Nat} {x : Int} :
    x ∈ allDists succ n ↔ ∃ s t, s < n ∧ t < n ∧ bfsDistances succ n s t = x := by
  unfold allDists
  simp only [List.mem_flatMap, List.mem_map, List.mem_range]
  constructor
  · rintro ⟨s, hs, t, ht, he⟩
    exact ⟨s, t, hs, ht, he⟩
  · rintro ⟨s, t, hs, ht, he⟩
    exact ⟨s, hs, t, ht, he⟩

theorem foldl_if_max (d : Nat → Int) (l : List Nat) (m : Int) :
    l.foldl (fun m2 t => if m2 < d t then d t else m2) m = (l.map d).foldl max m := by
  induction l generalizing m with
  | nil => rfl
  | cons x l ih =>
    simp only [List.foldl_cons, List.map_cons]
    rw [show (if m < d x then d x else m) = max m (d x) by
      rcases le_total m (d x) with h | h
      · rw [max_eq_right h]
        split <;> omega
      · rw [max_eq_left h]
        split <;> omega]
    exact ih (max m (d x))

theorem foldl_max_flatMap (L : List Nat) (f : Nat → List Int) (a : Int) :
    (L.flatMap f).foldl max a = L.foldl (fun m s => (f s).foldl max m) a := by
  induction L generalizing a with
  | nil => rfl
  | cons x L ih =>
    rw [List.flatMap_cons, List.foldl_append, ih]
    rfl

theorem diameterScan_eq (succ : Nat → List Nat) (n : Nat) :
    diameterScan succ n = (allDists succ n).foldl max 0 := by
  unfold diameterScan allDists
  rw [foldl_max_flatMap]
  apply List.foldl_ext
  intro m s _
  exact foldl_if_max (fun t => bfsDistances succ n s t) (List.range n) m

theorem bfsVisit_preserve (dv : Int) (ws : List Nat) (dist : Nat → Int) (acc : List Nat)
    (x : Nat) (hx : 0 ≤ dist x) : (bfsVisit dv ws dist acc).1 x = dist x := by
  induction ws generalizing dist acc with
  | nil => rfl
  | cons w ws ih =>
    simp only [bfsVisit]
    split
    · next hw =>
      have hxw : x ≠ w := by
        intro hc
        subst hc
        omega
      rw [ih (fun y => if y = w then dv + 1 else dist y) (acc ++ [w]) (by simpa [hxw] using hx)]
      simp [hxw]
    · next hw => exact ih dist acc hx

theorem bfsLoop_preserve (succ : Nat → List Nat) (fuel : Nat) :
    ∀ (queue : List Nat) (dist : Nat → Int) (x : Nat), 0 ≤ dist x →
      bfsLoop succ fuel queue dist x = dist x := by
  induction fuel with
  | zero => intro queue dist x _; rfl
  | succ fuel ih =>
    intro queue dist x hx
    cases queue with
    | nil => rfl
    | cons q queue =>
      simp only [bfsLoop]
      have h1 : 0 ≤ (bfsVisit (dist q) (succ q) dist []).1 x := by
        rw [bfsVisit_preserve (dist q) (succ q) dist [] x hx]
        exact hx
      rw [ih _ _ _ h1, bfsVisit_preserve (dist q) (succ q) dist [] x hx]

/-- The BFS never changes the distance of the source itself: it stays 0. -/
theorem bfsDistances_self (succ : Nat → List Nat) (n s : Nat) :
    bfsDistances succ n s s = 0 := by
  unfold bfsDistances
  rw [bfsLoop_preserve succ n [s] _ s (by simp)]
  simp

/-- C7: `diameter()` returns 0 whenever `V <= 1`; for `V >= 2` it returns -1
exactly when no BFS distance is positive (no vertex reaches any other vertex,
every per-source maximum being 0 - note `bfsDistances s s = 0` always, by
`bfsDistances_self`); otherwise it returns the maximum of the BFS distances
over all source/target pairs: it equals one of them and bounds all of them. -/
theorem claim7 (n : Nat) (succ : Nat → List Nat) :
    (n ≤ 1 → diameter succ n = 0) ∧
    (2 ≤ n →
      ((diameter succ n = -1 ↔
          ∀ s t, s < n → t < n → bfsDistances succ n s t ≤ 0) ∧
        ((∃ s t, s < n ∧ t < n ∧ 0 < bfsDistances succ n s t) →
          (∃ s t, s < n ∧ t < n ∧ diameter succ n = bfsDistances succ n s t) ∧
            ∀ s t, s < n → t < n → bfsDistances succ n s t ≤ diameter succ n))) := by
  have hscan := diameterScan_eq succ n
  have h0 : 0 ≤ diameterScan succ n := by
    rw [hscan]
    exact foldl_max_le_self _ 0
  have hub : ∀ s t, s < n → t < n → bfsDistances succ n s t ≤ diameterScan succ n := by
    intro s t hs ht
    rw [hscan]
    exact foldl_max_le_of_mem (mem_allDists.2 ⟨s, t, hs, ht, rfl⟩) 0
  have hatt : diameterScan succ n = 0 ∨ diameterScan succ n ∈ allDists succ n := by
    rw [hscan]
    exact foldl_max_attained (allDists succ n) 0
  constructor
  · intro h1
    simp [diameter, h1]
  · intro h2
    have hn1 : ¬ n ≤ 1 := by omega
    constructor
    · constructor
      · intro hd s t hs ht
        by_cases hpos : 0 < diameterScan succ n
        · rw [diameter, if_neg hn1, if_pos hpos] at hd
          omega
        · have := hub s t hs ht
          omega
      · intro hall
        have hle : diameterScan succ n ≤ 0 := by
          rcases hatt with h | h
          · omega
          · obtain ⟨s, t, hs, ht, he⟩ := mem_allDists.1 h
            rw [← he]
            exact hall s t hs ht
        rw [diameter, if_neg hn1, if_neg (by omega)]
    · rintro ⟨s, t, hs, ht, hpos⟩
      have hMpos : 0 < diameterScan succ n := lt_of_lt_of_le hpos (hub s t hs ht)
      have hdia : diameter succ n = diameterScan succ n := by
        rw [diameter, if_neg hn1, if_pos hMpos]
      constructor
      · rcases hatt with h | h
        · omega
        · obtain ⟨s2, t2, hs2, ht2, he⟩ := mem_allDists.1 h
          exact ⟨s2, t2, hs2, ht2, by rw [hdia, ← he]⟩
      · intro s2 t2 hs2 ht2
        rw [hdia]
        exact hub s2 t2 hs2 ht2

theorem claim7_witness :
    (2 ≤ 3) ∧ ((0 : Nat) < 3) ∧ ((1 : Nat) < 3) ∧
    0 < bfsDistances triL.succView 3 0 1 ∧
    ((∃ s t, s < 3 ∧ t < 3 ∧
        diameter triL.succView 3 = bfsDistances triL.succView 3 s t) ∧
      ∀ s t, s < 3 → t < 3 → bfsDistances triL.succView 3 s t ≤ diameter triL.succView 3) :=
  ⟨by decide, by decide, by decide, by decide,
    ((claim7 3 triL.succView).2 (by decide)).2 ⟨0, 1, by decide, by decide, by decide⟩⟩

/-- A two-vertex list graph with the single edge 0 -> 1, used to exhibit the
single-community behaviour of `bridging_ties`. -/
def pairL : AdjacencyListGraph := AdjacencyListGraph.run 2 [.addEdge 0 1]

/-- C8 is false as stated: with the total assignment putting both vertices of
the graph 0 -> 1 into one community, the claimed formula gives vertex 0 the
score 1/1 = 1 (its one neighbor's community over one community), but the code
returns 0.0 for every vertex whenever there is only one community. -/
theorem claim8_counterexample :
    bridging_ties pairL.succView pairL.predView 2 (fun _ => 0) 0 ≠
      bridgingSpec pairL.succView pairL.predView 2 (fun _ => 0) 0 := by
  have h1 : bridging_ties pairL.succView pairL.predView 2 (fun _ => 0) 0 = 0 := by
    unfold bridging_ties
    rw [if_neg (by decide)]
  have h2 : bridgingSpec pairL.succView pairL.predView 2 (fun _ => 0) 0 = 1 := by
    unfold bridgingSpec
    rw [show ((((pairL.succView 0 ++ pairL.predView 0).filter
          (fun x => decide (x < 2))).map (fun _ => 0)).dedup.length : Nat) = 1 by decide,
      show (((List.range 2).map (fun _ => 0)).dedup.length : Nat) = 1 by decide]
    norm_num
  rw [h1, h2]
  exact zero_ne_one

/-- C8 amended: for every graph view, every total community assignment and
every vertex, the bridging-ties score equals the number of distinct community
ids among the vertex's neighbors divided by the total number of distinct
communities whenever the assignment has at least two distinct communities;
when it has a single community, the code instead scores every vertex 0.0. -/
theorem claim8_amended (succ pred : Nat → List Nat) (n : Nat) (comm : Nat → Nat) (v : Nat) :
    (1 < ((List.range n).map comm).dedup.length →
      bridging_ties succ pred n comm v = bridgingSpec succ pred n comm v) ∧
    (((List.range n).map comm).dedup.length ≤ 1 →
      bridging_ties succ pred n comm v = 0) := by
  constructor
  · intro h2
    unfold bridging_ties bridgingSpec
    rw [if_pos h2]
  · intro h1
    unfold bridging_ties
    rw [if_neg (by omega)]

theorem claim8_witness :
    (1 < ((List.range 2).map (fun x => x)).dedup.length) ∧
    bridging_ties pairL.succView pairL.predView 2 (fun x => x) 0 =
      bridgingSpec pairL.succView pairL.predView 2 (fun x => x) 0 :=
  ⟨by decide,
    (claim8_amended pairL.succView pairL.predView 2 (fun x => x) 0).1 (by decide)⟩
